import Mathlib

/-!
# codex-app-server: the JSON-line RPC client of `main.go`

A shallow embedding of `src/codex-app-server/main.go`: the reader goroutine,
`waitResp`, the model selection of `main`, `processTurn`, `nextID`, `jstr`,
`jint` and `fatal`, followed by the properties of the specification.

Conventions of the embedding.

* A `json.RawMessage` holds the text of one JSON value. It is represented by the
  value it denotes (`Json`); the nil `RawMessage` that indexing a map with an
  absent key yields is `none`.
* A number keeps the one distinction the program depends on: whether its literal
  is an integer literal (`Json.int`) or has a fraction or an exponent
  (`Json.float`), because `json.Unmarshal` into an `int64` accepts only the first.
* A channel of events is the list of the events it still holds, the end of the
  list being the `close(ch)` of the reader goroutine.
* `encoding/json` matches an object key with a struct field by the exact tag
  first and by case folding otherwise. The folding comparison is the parameter
  `eqFold` of every function that decodes into a struct; the one of
  `encoding/json` is `equalFold`.
-/

namespace CodexAppServer

/-! ## JSON values and the decoders of `encoding/json` that `main.go` relies on -/

/-- A JSON value. -/
inductive Json where
  | null
  | bool (b : Bool)
  | int (n : Int)
  | float (lit : String)
  | str (s : String)
  | arr (xs : List Json)
  | obj (kvs : List (String × Json))

/-- The type `json.RawMessage`: `none` is the nil message. -/
abbrev RawMessage := Option Json

/-- The type `rawEvt = map[string]json.RawMessage`, as an association list in which
the first binding of a key is the value of the map at that key. -/
abbrev rawEvt := List (String × Json)

/-- The map index `evt[k]`. `none` is both `ok = false` and the nil zero value. -/
def index (evt : rawEvt) (k : String) : RawMessage :=
  List.lookup k evt

/-- The map assignment `m[k] = v`. -/
def assign (m : rawEvt) (k : String) (v : Json) : rawEvt :=
  (k, v) :: m.filter (fun p => p.1 != k)

/-- Smallest `int64`. -/
def minInt64 : Int := -(2 ^ 63)

/-- Largest `int64`. -/
def maxInt64 : Int := 2 ^ 63 - 1

/-- The function `jstr`: `json.Unmarshal` into a `string` starting from `""`; only a
JSON string is stored, anything else (nil, `null`, an error) leaves `""`. -/
def jstr (r : RawMessage) : String :=
  match r with
  | some (Json.str s) => s
  | _ => ""

/-- The function `jint`: `json.Unmarshal` into an `int64` starting from `0`; only an
integer literal in the range of `int64` is stored, anything else leaves `0`. -/
def jint (r : RawMessage) : Int :=
  match r with
  | some (Json.int n) => if minInt64 ≤ n ∧ n ≤ maxInt64 then n else 0
  | _ => 0

/-- The struct field that `encoding/json` selects for an object key: the field whose
tag is the key, otherwise the first field whose tag equals the key up to folding. -/
def findField (eqFold : String → String → Bool) (fields : List String) (key : String) :
    Option String :=
  if key ∈ fields then some key else fields.find? (fun f => eqFold f key)

/-- The folding of one rune by `foldName` of `encoding/json`, as a code point: a
lower case ASCII letter folds to its upper case letter, U+212A (Kelvin sign) to `K`
and U+017F (long s) to `S`. Every other rune folds to the least rune of its
case orbit, which is never an ASCII rune; it is represented by its own code. -/
def foldRune (c : Char) : Nat :=
  if 97 ≤ c.toNat ∧ c.toNat ≤ 122 then c.toNat - 32
  else if c.toNat = 0x212A then 75
  else if c.toNat = 0x017F then 83
  else c.toNat

/-- The folded name `foldName(s)`. -/
def foldName (s : String) : List Nat :=
  s.data.map foldRune

/-- The case-insensitive comparison of a struct tag with an object key in
`encoding/json`: the folded names are equal. It is exact whenever the tag is
ASCII, as every tag of `main.go` is. -/
def equalFold (tag key : String) : Bool :=
  foldName tag == foldName key

/-- Decoding the members of an object into a struct with the single string field
tagged `name`, whose current value is `cur`: members are taken in order, a member
for the field that is a JSON string overwrites it, any other member is skipped. -/
def decodeStrField (eqFold : String → String → Bool) (name : String) :
    List (String × Json) → String → String
  | [], cur => cur
  | (k, v) :: rest, cur =>
    match findField eqFold [name] k, v with
    | some _, Json.str s => decodeStrField eqFold name rest s
    | _, _ => decodeStrField eqFold name rest cur

/-- The field of `var p struct { F string }` after `json.Unmarshal(r, &p)`, for the
field tagged `name`. Anything but an object leaves the zero value. -/
def unmarshalStrStruct (eqFold : String → String → Bool) (name : String) (r : RawMessage) :
    String :=
  match r with
  | some (Json.obj kvs) => decodeStrField eqFold name kvs ""
  | _ => ""

/-! ## `fatal` and `waitResp` -/

/-- How a call of `waitResp` ends. -/
inductive WaitOutcome where
  /-- The call returns this `json.RawMessage`. -/
  | returned (raw : RawMessage)
  /-- The call reaches `fatal`: the line written to standard error and the exit status. -/
  | exited (stderr : String) (status : Nat)

/-- The function `fatal`, for a format with one `%s`, already substituted. -/
def fatal (formatted : String) : WaitOutcome :=
  WaitOutcome.exited (formatted ++ "\n") 1

/-- The closure `waitResp`, run on the events the channel holds: the outcome together
with the events left on the channel. -/
def waitResp (eqFold : String → String → Bool) (id : Int) :
    List rawEvt → WaitOutcome × List rawEvt
  | [] => (WaitOutcome.returned none, [])
  | evt :: rest =>
    match index evt "id" with
    | some raw =>
      if jint (some raw) = id then
        match index evt "error" with
        | some errRaw =>
          (fatal ("server error: " ++ unmarshalStrStruct eqFold "message" (some errRaw)), rest)
        | none => (WaitOutcome.returned (index evt "result"), rest)
      else waitResp eqFold id rest
    | none => waitResp eqFold id rest

/-! ## The reader goroutine -/

/-- One line of the standard output of the child process, as `bufio.Scanner` and
`json.Unmarshal` see it: the number of bytes before its newline, and the JSON value
its text denotes (`none` when the text is not valid JSON). -/
structure Line where
  size : Nat
  json : Option Json

/-- The buffer and token limit `2<<20` given to `sc.Buffer`. -/
def maxTokenSize : Nat := 2 <<< 20

/-- The call `json.Unmarshal([]byte(sc.Text()), &m)` for `var m rawEvt`: `some m` when
it returns a nil error. An object is stored member by member, a later member
replacing an earlier one with the same key; `null` is accepted and leaves the nil
map; any other value, and a text that is not JSON, is an error. -/
def unmarshalEvt (text : Option Json) : Option rawEvt :=
  match text with
  | some (Json.obj kvs) => some (kvs.foldl (fun m p => assign m p.1 p.2) [])
  | some Json.null => some []
  | _ => none

/-- The reader goroutine: the events it sends on `ch` before `close(ch)`. `sc.Scan()`
stops at the first line that does not fit the buffer. -/
def readerPump : List Line → List rawEvt
  | [] => []
  | l :: rest =>
    if l.size < maxTokenSize then
      match unmarshalEvt l.json with
      | some m => m :: readerPump rest
      | none => readerPump rest
    else []

/-! ## Model selection in `main` -/

/-- An element of `models.Data`. -/
structure ModelEntry where
  id : String
  name : String
  isDefault : Bool

/-- The loop `for _, m := range models.Data` of `main`, on the variable `model`. -/
def selectLoop : List ModelEntry → String → String
  | [], model => model
  | m :: rest, model => selectLoop rest (if m.isDefault then m.id else model)

/-- The value of `model` that `main` passes to `thread/start`. -/
def selectModel (data : List ModelEntry) : String :=
  let model := selectLoop data ""
  if model = "" ∧ data.length > 0 then
    match data with
    | m :: _ => m.id
    | [] => model
  else model

/-! ## `nextID` -/

/-- The value an `int64` holds after an arithmetic result `x` (two-complement wrap-around). -/
def wrapInt64 (x : Int) : Int :=
  (x + 2 ^ 63) % 2 ^ 64 - 2 ^ 63

/-- The initial value of `idSeq`. -/
def idSeqInit : Int := 0

/-- The function `nextID` on the value of `idSeq`: the returned id and the new value
of `idSeq`. -/
def nextID (idSeq : Int) : Int × Int :=
  (wrapInt64 (idSeq + 1), wrapInt64 (idSeq + 1))

/-- The ids returned by `n` successive calls of `nextID`, with the final `idSeq`. -/
def nextIDs : Nat → Int → List Int × Int
  | 0, idSeq => ([], idSeq)
  | n + 1, idSeq =>
    let r := nextID idSeq
    let t := nextIDs n r.2
    (r.1 :: t.1, t.2)

/-! ## `processTurn` -/

/-- What `processTurn` does that is visible outside: it receives an event from the
channel, prints to standard output, or sends a message to the child process. -/
inductive Effect where
  | recv (evt : rawEvt)
  | print (s : String)
  | send (msg : Json)

/-- An element of `p.Item.Changes`. -/
structure Change where
  path : String
  kind : String

/-- The struct `p.Item` of the `item/started` branch. The slice `Changes` is
`changes`; `spare` holds the elements of its backing array beyond its length that
an earlier, longer array has written. -/
structure Item where
  itemType : String
  command : String
  cwd : String
  changes : List Change
  spare : List Change

/-- Decoding the members of an object into a `Change`. -/
def decodeChangeFields (eqFold : String → String → Bool) :
    List (String × Json) → Change → Change
  | [], c => c
  | (k, v) :: rest, c =>
    match findField eqFold ["path", "kind"] k, v with
    | some "path", Json.str s => decodeChangeFields eqFold rest { c with path := s }
    | some "kind", Json.str s => decodeChangeFields eqFold rest { c with kind := s }
    | _, _ => decodeChangeFields eqFold rest c

/-- Decoding an array element into the slice element `cur`: an object is decoded
member by member, any other value leaves the element as it is. -/
def decodeChange (eqFold : String → String → Bool) (j : Json) (cur : Change) : Change :=
  match j with
  | Json.obj kvs => decodeChangeFields eqFold kvs cur
  | _ => cur

/-- Decoding the elements of a non-empty array into a slice with the given backing
elements: element `i` is decoded into the element `i` of the backing array, which
keeps what an earlier array stored there, and into a zero element beyond it. The
backing elements beyond the array are kept. -/
def decodeChanges (eqFold : String → String → Bool) :
    List Json → List Change → List Change
  | [], backing => backing
  | x :: xs, [] => decodeChange eqFold x ⟨"", ""⟩ :: decodeChanges eqFold xs []
  | x :: xs, b :: bs => decodeChange eqFold x b :: decodeChanges eqFold xs bs

/-- Decoding the members of an object into an `Item`. A non-empty array is decoded
into the elements of `Changes` in place and sets its length; the empty array and
`null` give `Changes` a new empty value. -/
def decodeItemFields (eqFold : String → String → Bool) :
    List (String × Json) → Item → Item
  | [], it => it
  | (k, v) :: rest, it =>
    match findField eqFold ["type", "command", "cwd", "changes"] k, v with
    | some "type", Json.str s => decodeItemFields eqFold rest { it with itemType := s }
    | some "command", Json.str s => decodeItemFields eqFold rest { it with command := s }
    | some "cwd", Json.str s => decodeItemFields eqFold rest { it with cwd := s }
    | some "changes", Json.arr [] =>
      decodeItemFields eqFold rest { it with changes := [], spare := [] }
    | some "changes", Json.arr (x :: xs) =>
      decodeItemFields eqFold rest
        { it with
          changes :=
            (decodeChanges eqFold (x :: xs) (it.changes ++ it.spare)).take (x :: xs).length
          spare :=
            (decodeChanges eqFold (x :: xs) (it.changes ++ it.spare)).drop (x :: xs).length }
    | some "changes", Json.null =>
      decodeItemFields eqFold rest { it with changes := [], spare := [] }
    | _, _ => decodeItemFields eqFold rest it

/-- Decoding the members of the `params` object of `item/started`. -/
def decodeItemParams (eqFold : String → String → Bool) :
    List (String × Json) → Item → Item
  | [], it => it
  | (k, v) :: rest, it =>
    match findField eqFold ["item"] k, v with
    | some _, Json.obj kvs => decodeItemParams eqFold rest (decodeItemFields eqFold kvs it)
    | _, _ => decodeItemParams eqFold rest it

/-- The value of `p.Item` after `json.Unmarshal(evt["params"], &p)`. -/
def unmarshalItem (eqFold : String → String → Bool) (r : RawMessage) : Item :=
  match r with
  | some (Json.obj kvs) => decodeItemParams eqFold kvs ⟨"", "", "", [], []⟩
  | _ => ⟨"", "", "", [], []⟩

/-- The struct `p.Turn` of the `turn/completed` branch; `error` is `Error.Message`
when the pointer `Error` is not nil. -/
structure Turn where
  status : String
  error : Option String

/-- Decoding the members of an object into a `Turn`. For `error`, `null` sets the
pointer to nil and any other value allocates it when it is nil; only an object
can then store a message. -/
def decodeTurnFields (eqFold : String → String → Bool) :
    List (String × Json) → Turn → Turn
  | [], t => t
  | (k, v) :: rest, t =>
    match findField eqFold ["status", "error"] k, v with
    | some "status", Json.str s => decodeTurnFields eqFold rest { t with status := s }
    | some "error", Json.null => decodeTurnFields eqFold rest { t with error := none }
    | some "error", Json.obj kvs =>
      decodeTurnFields eqFold rest
        { t with error := some (decodeStrField eqFold "message" kvs (t.error.getD "")) }
    | some "error", _ => decodeTurnFields eqFold rest { t with error := some (t.error.getD "") }
    | _, _ => decodeTurnFields eqFold rest t

/-- Decoding the members of the `params` object of `turn/completed`. -/
def decodeTurnParams (eqFold : String → String → Bool) :
    List (String × Json) → Turn → Turn
  | [], t => t
  | (k, v) :: rest, t =>
    match findField eqFold ["turn"] k, v with
    | some _, Json.obj kvs => decodeTurnParams eqFold rest (decodeTurnFields eqFold kvs t)
    | _, _ => decodeTurnParams eqFold rest t

/-- The value of `p.Turn` after `json.Unmarshal(evt["params"], &p)`. -/
def unmarshalTurn (eqFold : String → String → Bool) (r : RawMessage) : Turn :=
  match r with
  | some (Json.obj kvs) => decodeTurnParams eqFold kvs ⟨"", none⟩
  | _ => ⟨"", none⟩

/-- The message `map[string]interface{}{"id": id, "result": "accept"}`. -/
def acceptReply (id : Int) : Json :=
  Json.obj [("id", Json.int id), ("result", Json.str "accept")]

/-- One iteration of the loop of `processTurn`. -/
structure Step where
  /-- The prints and sends of the iteration, in order. -/
  out : List Effect
  /-- The variable `agentPrinted` after the iteration. -/
  agentPrinted : Bool
  /-- Whether the iteration executes `return`. -/
  done : Bool

/-- The body of the loop of `processTurn`: the `switch` on `method`. -/
def handleEvt (eqFold : String → String → Bool) (agentPrinted : Bool) (evt : rawEvt) : Step :=
  let method := jstr (index evt "method")
  if method = "item/agentMessage/delta" then
    let delta := unmarshalStrStruct eqFold "delta" (index evt "params")
    if !agentPrinted then
      ⟨[Effect.print "\nagent> ", Effect.print delta], true, false⟩
    else
      ⟨[Effect.print delta], agentPrinted, false⟩
  else if method = "item/reasoning/summaryTextDelta" then
    let delta := unmarshalStrStruct eqFold "delta" (index evt "params")
    ⟨[Effect.print ("\x1b[2m" ++ delta ++ "\x1b[0m")], agentPrinted, false⟩
  else if method = "item/started" then
    let item := unmarshalItem eqFold (index evt "params")
    if item.itemType = "commandExecution" then
      ⟨[Effect.print ("\n  \x1b[33m$ " ++ item.command ++ "\x1b[0m\n")], agentPrinted, false⟩
    else if item.itemType = "fileChange" then
      ⟨item.changes.map (fun c =>
          Effect.print ("\n  \x1b[36m[" ++ c.kind ++ "] " ++ c.path ++ "\x1b[0m\n")),
        agentPrinted, false⟩
    else ⟨[], agentPrinted, false⟩
  else if method = "item/commandExecution/outputDelta" then
    ⟨[Effect.print (unmarshalStrStruct eqFold "delta" (index evt "params"))], agentPrinted, false⟩
  else if method = "item/fileChange/outputDelta" then
    ⟨[Effect.print (unmarshalStrStruct eqFold "delta" (index evt "params"))], agentPrinted, false⟩
  else if method = "item/commandExecution/requestApproval" then
    match index evt "id" with
    | some idRaw =>
      let command := unmarshalStrStruct eqFold "command" (index evt "params")
      ⟨[Effect.print ("\n  \x1b[33m[auto-approve] " ++ command ++ "\x1b[0m\n"),
          Effect.send (acceptReply (jint (some idRaw)))], agentPrinted, false⟩
    | none => ⟨[], agentPrinted, false⟩
  else if method = "item/fileChange/requestApproval" then
    match index evt "id" with
    | some idRaw =>
      ⟨[Effect.print "\n  \x1b[36m[auto-approve] file change\x1b[0m\n",
          Effect.send (acceptReply (jint (some idRaw)))], agentPrinted, false⟩
    | none => ⟨[], agentPrinted, false⟩
  else if method = "error" then
    let message :=
      match index evt "params" with
      | some (Json.obj kvs) =>
        kvs.foldl (fun cur p =>
          match findField eqFold ["error"] p.1, p.2 with
          | some _, Json.obj ekvs => decodeStrField eqFold "message" ekvs cur
          | _, _ => cur) ""
      | _ => ""
    ⟨[Effect.print ("\n\x1b[31m[error] " ++ message ++ "\x1b[0m\n")], agentPrinted, false⟩
  else if method = "turn/completed" then
    let turn := unmarshalTurn eqFold (index evt "params")
    let errOut :=
      match turn.error with
      | some message =>
        [Effect.print ("\n\x1b[31m[" ++ turn.status ++ "] " ++ message ++ "\x1b[0m\n")]
      | none => []
    ⟨errOut ++ (if agentPrinted then [Effect.print "\n"] else []), agentPrinted, true⟩
  else ⟨[], agentPrinted, false⟩

/-- What a call of `processTurn` leaves behind. -/
structure TurnResult where
  /-- Everything the call did, in order. -/
  trace : List Effect
  /-- The events left on the channel when the call returns. -/
  rest : List rawEvt
  /-- Whether the call returned at `turn/completed` (otherwise the channel was closed). -/
  completed : Bool

/-- The loop `for evt := range ch` of `processTurn`, from a value of `agentPrinted`. -/
def turnLoop (eqFold : String → String → Bool) : Bool → List rawEvt → TurnResult
  | _, [] => ⟨[], [], false⟩
  | agentPrinted, evt :: rest =>
    let s := handleEvt eqFold agentPrinted evt
    if s.done then ⟨Effect.recv evt :: s.out, rest, true⟩
    else
      let r := turnLoop eqFold s.agentPrinted rest
      ⟨Effect.recv evt :: (s.out ++ r.trace), r.rest, r.completed⟩

/-- The function `processTurn`. -/
def processTurn (eqFold : String → String → Bool) (ch : List rawEvt) : TurnResult :=
  turnLoop eqFold false ch

/-- The text written to standard output in a trace. -/
def printed : List Effect → String
  | [] => ""
  | Effect.print s :: rest => s ++ printed rest
  | _ :: rest => printed rest

/-- The messages sent to the child process in a trace, in order. -/
def sent : List Effect → List Json
  | [] => []
  | Effect.send m :: rest => m :: sent rest
  | _ :: rest => sent rest

/-- The events received from the channel in a trace, in order. -/
def consumed : List Effect → List rawEvt
  | [] => []
  | Effect.recv e :: rest => e :: consumed rest
  | _ :: rest => consumed rest

/-! ## Notions of the specification -/

/-- The test `raw, ok := evt["id"]; ok && jint(raw) == id` of `waitResp`. -/
def idMatches (id : Int) (evt : rawEvt) : Bool :=
  match index evt "id" with
  | some raw => jint (some raw) == id
  | none => false

/-- A Response of the specification: a message with an `id` and no `method`. -/
def isResponse (evt : rawEvt) : Bool :=
  (index evt "id").isSome && (index evt "method").isNone

/-- A Notification of the specification: a message with a `method` and no `id`. -/
def isNotification (evt : rawEvt) : Bool :=
  (index evt "method").isSome && (index evt "id").isNone

/-- A ServerRequest of the specification: a message with a `method` and an `id`. -/
def isServerRequest (evt : rawEvt) : Bool :=
  (index evt "method").isSome && (index evt "id").isSome

/-- The nine method names that have a branch in the `switch` of `processTurn`. -/
def handledMethods : List String :=
  ["item/agentMessage/delta", "item/reasoning/summaryTextDelta", "item/started",
   "item/commandExecution/outputDelta", "item/fileChange/outputDelta",
   "item/commandExecution/requestApproval", "item/fileChange/requestApproval",
   "error", "turn/completed"]

/-- The value of `p.Delta` in the `item/agentMessage/delta` branch. -/
def deltaOf (eqFold : String → String → Bool) (evt : rawEvt) : String :=
  unmarshalStrStruct eqFold "delta" (index evt "params")

/-- The members of a JSON object whose key is `name` up to case folding, in order. -/
def membersFold (name : String) (kvs : List (String × Json)) : List (String × Json) :=
  kvs.filter (fun p => equalFold name p.1)

/-- The strings among the values of the members of a JSON object whose key is `name`
up to case folding, in order. -/
def strMembers (name : String) (kvs : List (String × Json)) : List String :=
  kvs.filterMap (fun p =>
    if equalFold name p.1 then
      match p.2 with
      | Json.str s => some s
      | _ => none
    else none)

/-- The string a JSON object gives for `name`: the value of its last member whose
key is `name` up to case folding and whose value is a string, and `""` when it
has no such member. -/
def strMember (name : String) (kvs : List (String × Json)) : String :=
  (strMembers name kvs).getLast?.getD ""

/-- The server message of the value of an `error` key: the string its object gives
for `message`, and `""` when the value is not an object. -/
def errorMessage (errRaw : Json) : String :=
  match errRaw with
  | Json.obj kvs => strMember "message" kvs
  | _ => ""

/-- The delta of the payload of an event: the string its `params` object gives for
`delta`, and `""` when `params` is absent or not an object. -/
def payloadDelta (evt : rawEvt) : String :=
  match index evt "params" with
  | some (Json.obj kvs) => strMember "delta" kvs
  | _ => ""

/-- Whether the last value of a list is other than `null`; `init` for the empty list. -/
def lastNonNull : List Json → Bool → Bool
  | [], init => init
  | Json.null :: rest, _ => lastNonNull rest false
  | _ :: rest, _ => lastNonNull rest true

/-- The values of the `error` members of the `turn` objects of a `params` object, keys
taken up to case folding, in order. -/
def turnErrorMembers : List (String × Json) → List Json
  | [] => []
  | (k, Json.obj tkvs) :: rest =>
    if equalFold "turn" k then
      (membersFold "error" tkvs).map Prod.snd ++ turnErrorMembers rest
    else turnErrorMembers rest
  | _ :: rest => turnErrorMembers rest

/-- Whether the payload of a `turn/completed` event carries an error: its `params` is
an object and the last `error` member of its `turn` objects is other than `null`. -/
def hasErrorPayload (evt : rawEvt) : Bool :=
  match index evt "params" with
  | some (Json.obj pkvs) => lastNonNull (turnErrorMembers pkvs) false
  | _ => false

/-- The variable `agentPrinted` after the loop of `processTurn` has handled `pre`. -/
def agentPrintedAfter (eqFold : String → String → Bool) : Bool → List rawEvt → Bool
  | b, [] => b
  | b, e :: pre => agentPrintedAfter eqFold (handleEvt eqFold b e).agentPrinted pre

/-- Concatenation of a list of strings. -/
def concat : List String → String
  | [] => ""
  | s :: rest => s ++ concat rest

/-! ## Concrete messages -/

/-- The notification `{"method":"item/agentMessage/delta","params":{"delta":"Hi"}}`. -/
def exDeltaHi : rawEvt :=
  [("method", Json.str "item/agentMessage/delta"),
   ("params", Json.obj [("delta", Json.str "Hi")])]

/-- The notification `{"method":"item/agentMessage/delta","params":{"delta":" there"}}`. -/
def exDeltaThere : rawEvt :=
  [("method", Json.str "item/agentMessage/delta"),
   ("params", Json.obj [("delta", Json.str " there")])]

/-- The notification `{"method":"turn/completed","params":{"turn":{"status":"completed"}}}`. -/
def exCompleted : rawEvt :=
  [("method", Json.str "turn/completed"),
   ("params", Json.obj [("turn", Json.obj [("status", Json.str "completed")])])]

/-- The server request
`{"method":"item/commandExecution/requestApproval","id":n,"params":{"command":"ls"}}`. -/
def exApproval (n : Int) : rawEvt :=
  [("method", Json.str "item/commandExecution/requestApproval"), ("id", Json.int n),
   ("params", Json.obj [("command", Json.str "ls")])]

/-- The result `{"data":[{"id":"gpt-5","displayName":"GPT-5","isDefault":true}]}`. -/
def exModels : Json :=
  Json.obj [("data", Json.arr [Json.obj [("id", Json.str "gpt-5"),
    ("displayName", Json.str "GPT-5"), ("isDefault", Json.bool true)]])]

/-- The response `{"id":1,"result":{"data":[...]}}` to `model/list`. -/
def exResponse : rawEvt :=
  [("id", Json.int 1), ("result", exModels)]

/-- The response `{"id":1}`, which has neither `result` nor `error`. -/
def exBareResponse : rawEvt :=
  [("id", Json.int 1)]

/-- The response `{"id":1,"error":{"message":"boom"}}`. -/
def exErrorResponse : rawEvt :=
  [("id", Json.int 1), ("error", Json.obj [("message", Json.str "boom")])]

/-- The response `{"id":1,"error":{"message":"boom","Message":"trace"}}`. -/
def exFoldedErrorResponse : rawEvt :=
  [("id", Json.int 1),
   ("error", Json.obj [("message", Json.str "boom"), ("Message", Json.str "trace")])]

/-- The response `{"id":1,"error":{"message":"boom","data":"trace","code":-32000}}`. -/
def exRichErrorResponse : rawEvt :=
  [("id", Json.int 1),
   ("error", Json.obj [("message", Json.str "boom"), ("data", Json.str "trace"),
      ("code", Json.int (-32000))])]

/-- The notification
`{"method":"item/agentMessage/delta","params":{"delta":"Hi","Delta":"Ho"}}`. -/
def exFoldedDelta : rawEvt :=
  [("method", Json.str "item/agentMessage/delta"),
   ("params", Json.obj [("delta", Json.str "Hi"), ("Delta", Json.str "Ho")])]

/-- The notification
`{"method":"item/agentMessage/delta","params":{"delta":"Hi","itemId":"msg_1"}}`. -/
def exDeltaHiItem : rawEvt :=
  [("method", Json.str "item/agentMessage/delta"),
   ("params", Json.obj [("delta", Json.str "Hi"), ("itemId", Json.str "msg_1")])]

/-! ## Lemmas on the decoders -/

theorem forall_mem_pair {α : Type} (P : α → Prop) (a b : α) (ha : P a) (hb : P b) :
    ∀ e ∈ [a, b], P e := by
  intro e he
  rcases List.mem_cons.1 he with rfl | he
  · exact ha
  · rcases List.mem_cons.1 he with rfl | he
    · exact hb
    · cases he

theorem equalFold_self (a : String) : equalFold a a = true := by
  simp [equalFold]

theorem findField_single_isSome (name k : String) :
    (findField equalFold [name] k).isSome = equalFold name k := by
  unfold findField
  by_cases h : k = name
  · subst h
    simp [equalFold_self]
  · cases hf : equalFold name k <;> simp [h, hf, List.find?]

theorem decodeStrField_eq (name : String) (kvs : List (String × Json)) : ∀ cur : String,
    decodeStrField equalFold name kvs cur = (strMembers name kvs).getLast?.getD cur := by
  induction kvs with
  | nil => intro cur; rfl
  | cons p kvs ih =>
    intro cur
    obtain ⟨k, v⟩ := p
    have hsome := findField_single_isSome name k
    cases hf : findField equalFold [name] k with
    | none =>
      rw [hf] at hsome
      have hk : equalFold name k = false := by simpa using hsome.symm
      simp [decodeStrField, hf, strMembers, List.filterMap_cons, hk, ih]
    | some f =>
      rw [hf] at hsome
      have hk : equalFold name k = true := by simpa using hsome.symm
      cases v <;>
        simp [decodeStrField, hf, strMembers, List.filterMap_cons, hk, ih,
          List.getLast?_cons]

theorem unmarshal_message_eq (errRaw : Json) :
    unmarshalStrStruct equalFold "message" (some errRaw) = errorMessage errRaw := by
  cases errRaw <;> simp [unmarshalStrStruct, errorMessage, strMember, decodeStrField_eq]

theorem deltaOf_eq (evt : rawEvt) : deltaOf equalFold evt = payloadDelta evt := by
  unfold deltaOf payloadDelta unmarshalStrStruct
  cases h : index evt "params" with
  | none => rfl
  | some v => cases v <;> simp [strMember, decodeStrField_eq]

theorem strMembers_eq_members (name : String) (kvs : List (String × Json)) :
    strMembers name kvs =
      (membersFold name kvs).filterMap (fun p =>
        match p.2 with
        | Json.str s => some s
        | _ => none) := by
  induction kvs with
  | nil => rfl
  | cons p kvs ih =>
    unfold strMembers membersFold at *
    cases hk : equalFold name p.1 <;>
      simp [List.filterMap_cons, List.filter_cons, hk, ih]

theorem strMember_of_only_member (name : String) (kvs : List (String × Json)) (s : String)
    (h : membersFold name kvs = [(name, Json.str s)]) : strMember name kvs = s := by
  simp [strMember, strMembers_eq_members, h]

theorem equalFold_status_not_error (k : String) (h : equalFold "status" k = true) :
    equalFold "error" k = false := by
  unfold equalFold at *
  have hk : foldName "status" = foldName k := by simpa using h
  rw [← hk]
  decide

theorem findField_status_error (k : String) :
    findField equalFold ["status", "error"] k =
      if equalFold "status" k = true then some "status"
      else if equalFold "error" k = true then some "error" else none := by
  unfold findField
  by_cases h1 : k = "status"
  · subst h1
    simp [equalFold_self]
  · by_cases h2 : k = "error"
    · subst h2
      have hne : equalFold "status" "error" = false := by decide
      simp [equalFold_self, hne]
    · cases hs : equalFold "status" k <;> cases he : equalFold "error" k <;>
        simp [h1, h2, hs, he, List.find?]

theorem lastNonNull_append (a b : List Json) : ∀ init : Bool,
    lastNonNull (a ++ b) init = lastNonNull b (lastNonNull a init) := by
  induction a with
  | nil => intro init; rfl
  | cons x a ih => intro init; cases x <;> simp [lastNonNull, ih]

theorem decodeTurnFields_error (tkvs : List (String × Json)) : ∀ t : Turn,
    (decodeTurnFields equalFold tkvs t).error.isSome =
      lastNonNull ((membersFold "error" tkvs).map Prod.snd) t.error.isSome := by
  induction tkvs with
  | nil => intro t; rfl
  | cons p tkvs ih =>
    intro t
    obtain ⟨k, v⟩ := p
    have hfind := findField_status_error k
    cases hs : equalFold "status" k with
    | true =>
      have he := equalFold_status_not_error k hs
      simp only [hs, if_true] at hfind
      cases v <;>
        simp [decodeTurnFields, hfind, membersFold, List.filter_cons, he, ih]
    | false =>
      cases he : equalFold "error" k with
      | true =>
        simp only [hs, he, if_true, Bool.false_eq_true, if_false] at hfind
        cases v <;>
          simp [decodeTurnFields, hfind, membersFold, List.filter_cons, he, ih, lastNonNull]
      | false =>
        simp only [hs, he, Bool.false_eq_true, if_false] at hfind
        cases v <;>
          simp [decodeTurnFields, hfind, membersFold, List.filter_cons, he, ih]

theorem decodeTurnParams_error (pkvs : List (String × Json)) : ∀ t : Turn,
    (decodeTurnParams equalFold pkvs t).error.isSome =
      lastNonNull (turnErrorMembers pkvs) t.error.isSome := by
  induction pkvs with
  | nil => intro t; rfl
  | cons p pkvs ih =>
    intro t
    obtain ⟨k, v⟩ := p
    have hsome := findField_single_isSome "turn" k
    cases hf : findField equalFold ["turn"] k with
    | none =>
      rw [hf] at hsome
      have hk : equalFold "turn" k = false := by simpa using hsome.symm
      cases v <;> simp [decodeTurnParams, hf, turnErrorMembers, hk, ih]
    | some f =>
      rw [hf] at hsome
      have hk : equalFold "turn" k = true := by simpa using hsome.symm
      cases v <;>
        simp [decodeTurnParams, hf, turnErrorMembers, hk, ih, lastNonNull_append,
          decodeTurnFields_error]

theorem unmarshalTurn_error (evt : rawEvt) :
    (unmarshalTurn equalFold (index evt "params")).error.isSome = hasErrorPayload evt := by
  unfold unmarshalTurn hasErrorPayload
  cases h : index evt "params" with
  | none => rfl
  | some v => cases v <;> simp [decodeTurnParams_error]

/-! ## Lemmas on `waitResp` -/

theorem waitResp_skip_one (eqFold : String → String → Bool) (X : Int) (e : rawEvt)
    (rest : List rawEvt) (h : idMatches X e = false) :
    waitResp eqFold X (e :: rest) = waitResp eqFold X rest := by
  unfold idMatches at h
  rw [waitResp]
  split
  · rename_i raw hraw
    rw [hraw] at h
    simp at h
    simp [h]
  · rfl

theorem waitResp_skip (eqFold : String → String → Bool) (X : Int) (pre rest : List rawEvt)
    (h : ∀ m ∈ pre, idMatches X m = false) :
    waitResp eqFold X (pre ++ rest) = waitResp eqFold X rest := by
  induction pre with
  | nil => rfl
  | cons e pre ih =>
    rw [List.cons_append, waitResp_skip_one eqFold X e _ (h e (List.mem_cons_self _ _))]
    exact ih (fun m hm => h m (List.mem_cons_of_mem _ hm))

theorem waitResp_hit_result (eqFold : String → String → Bool) (X : Int) (e : rawEvt)
    (rest : List rawEvt) (h : idMatches X e = true) (herr : index e "error" = none) :
    waitResp eqFold X (e :: rest) = (WaitOutcome.returned (index e "result"), rest) := by
  unfold idMatches at h
  rw [waitResp]
  split
  · rename_i raw hraw
    rw [hraw] at h
    simp at h
    simp [h, herr]
  · rename_i hraw
    rw [hraw] at h
    simp at h

theorem waitResp_hit_error (eqFold : String → String → Bool) (X : Int) (e : rawEvt)
    (rest : List rawEvt) (errRaw : Json) (h : idMatches X e = true)
    (herr : index e "error" = some errRaw) :
    waitResp eqFold X (e :: rest) =
      (WaitOutcome.exited
        ("server error: " ++ unmarshalStrStruct eqFold "message" (some errRaw) ++ "\n") 1,
       rest) := by
  unfold idMatches at h
  rw [waitResp]
  split
  · rename_i raw hraw
    rw [hraw] at h
    simp at h
    simp [h, herr, fatal]
  · rename_i hraw
    rw [hraw] at h
    simp at h

theorem waitResp_no_match (eqFold : String → String → Bool) (X : Int) (evts : List rawEvt)
    (h : ∀ m ∈ evts, idMatches X m = false) :
    waitResp eqFold X evts = (WaitOutcome.returned none, []) := by
  have := waitResp_skip eqFold X evts [] h
  simpa [waitResp] using this

/-- Splitting a stream at the first message that passes the test of `waitResp`. -/
theorem find_idMatches_split (X : Int) (evts : List rawEvt) (e : rawEvt)
    (h : evts.find? (idMatches X) = some e) :
    ∃ pre post, evts = pre ++ e :: post ∧ (∀ m ∈ pre, idMatches X m = false) ∧
      idMatches X e = true := by
  induction evts with
  | nil => simp at h
  | cons a evts ih =>
    by_cases ha : idMatches X a = true
    · rw [List.find?_cons_of_pos _ ha] at h
      cases h
      exact ⟨[], evts, rfl, by simp, ha⟩
    · rw [List.find?_cons_of_neg _ ha] at h
      obtain ⟨pre, post, h1, h2, h3⟩ := ih h
      refine ⟨a :: pre, post, by simp [h1], ?_, h3⟩
      intro m hm
      rcases List.mem_cons.1 hm with rfl | hm
      · simpa using ha
      · exact h2 m hm

theorem find_idMatches_none (X : Int) (evts : List rawEvt)
    (h : evts.find? (idMatches X) = none) : ∀ m ∈ evts, idMatches X m = false := by
  intro m hm
  have := List.find?_eq_none.1 h m hm
  simpa using this

theorem idMatches_iff_int (X : Int) (e : rawEvt) (h0 : X ≠ 0) (hlo : minInt64 ≤ X)
    (hhi : X ≤ maxInt64) : idMatches X e = true ↔ index e "id" = some (Json.int X) := by
  unfold idMatches
  constructor
  · intro h
    split at h
    · rename_i raw hraw
      rw [hraw]
      simp at h
      unfold jint at h
      split at h
      · rename_i n
        split at h
        · simp_all
        · exact absurd h.symm h0
      · exact absurd h.symm h0
    · simp at h
  · intro h
    rw [h]
    simp [jint, hlo, hhi]

/-! ## Lemmas on `processTurn` -/

theorem printed_append (a b : List Effect) : printed (a ++ b) = printed a ++ printed b := by
  induction a with
  | nil => simp [printed]
  | cons x a ih => cases x <;> simp [printed, ih, String.append_assoc]

theorem sent_append (a b : List Effect) : sent (a ++ b) = sent a ++ sent b := by
  induction a with
  | nil => simp [sent]
  | cons x a ih => cases x <;> simp [sent, ih]

theorem consumed_append (a b : List Effect) : consumed (a ++ b) = consumed a ++ consumed b := by
  induction a with
  | nil => simp [consumed]
  | cons x a ih => cases x <;> simp [consumed, ih]

theorem turnLoop_cons_done (eqFold : String → String → Bool) (b : Bool) (e : rawEvt)
    (rest : List rawEvt) (h : (handleEvt eqFold b e).done = true) :
    turnLoop eqFold b (e :: rest) =
      ⟨Effect.recv e :: (handleEvt eqFold b e).out, rest, true⟩ := by
  simp [turnLoop, h]

theorem turnLoop_cons_next (eqFold : String → String → Bool) (b : Bool) (e : rawEvt)
    (rest : List rawEvt) (h : (handleEvt eqFold b e).done = false) :
    turnLoop eqFold b (e :: rest) =
      ⟨Effect.recv e :: ((handleEvt eqFold b e).out ++
          (turnLoop eqFold (handleEvt eqFold b e).agentPrinted rest).trace),
        (turnLoop eqFold (handleEvt eqFold b e).agentPrinted rest).rest,
        (turnLoop eqFold (handleEvt eqFold b e).agentPrinted rest).completed⟩ := by
  simp [turnLoop, h]

theorem handleEvt_unhandled (eqFold : String → String → Bool) (b : Bool) (e : rawEvt)
    (h : jstr (index e "method") ∉ handledMethods) :
    handleEvt eqFold b e = ⟨[], b, false⟩ := by
  simp only [handledMethods, List.mem_cons, List.mem_singleton, not_or, List.mem_nil_iff,
    not_false_eq_true, and_true] at h
  obtain ⟨h1, h2, h3, h4, h5, h6, h7, h8, h9⟩ := h
  simp [handleEvt, h1, h2, h3, h4, h5, h6, h7, h8, h9]

theorem handleEvt_delta (eqFold : String → String → Bool) (b : Bool) (e : rawEvt)
    (h : jstr (index e "method") = "item/agentMessage/delta") :
    handleEvt eqFold b e =
      if b then ⟨[Effect.print (deltaOf eqFold e)], true, false⟩
      else ⟨[Effect.print "\nagent> ", Effect.print (deltaOf eqFold e)], true, false⟩ := by
  cases b <;> simp [handleEvt, h, deltaOf]

theorem handleEvt_completed (eqFold : String → String → Bool) (b : Bool) (e : rawEvt)
    (h : jstr (index e "method") = "turn/completed")
    (herr : (unmarshalTurn eqFold (index e "params")).error = none) :
    handleEvt eqFold b e = ⟨if b then [Effect.print "\n"] else [], b, true⟩ := by
  simp [handleEvt, h, herr]

theorem handleEvt_approval (eqFold : String → String → Bool) (b : Bool) (e : rawEvt)
    (idRaw : Json)
    (hm : jstr (index e "method") = "item/commandExecution/requestApproval" ∨
      jstr (index e "method") = "item/fileChange/requestApproval")
    (hid : index e "id" = some idRaw) :
    ∃ line, handleEvt eqFold b e =
      ⟨[Effect.print line, Effect.send (acceptReply (jint (some idRaw)))], b, false⟩ := by
  rcases hm with hm | hm
  · exact ⟨"\n  \x1b[33m[auto-approve] " ++
      unmarshalStrStruct eqFold "command" (index e "params") ++ "\x1b[0m\n",
      by simp [handleEvt, hm, hid]⟩
  · exact ⟨"\n  \x1b[36m[auto-approve] file change\x1b[0m\n", by simp [handleEvt, hm, hid]⟩

theorem consumed_map_print (f : Change → String) (cs : List Change) :
    consumed (cs.map (fun c => Effect.print (f c))) = [] := by
  induction cs with
  | nil => rfl
  | cons c cs ih => simpa [consumed] using ih

theorem handleEvt_out_no_recv (eqFold : String → String → Bool) (b : Bool) (e : rawEvt) :
    consumed (handleEvt eqFold b e).out = [] := by
  by_cases h1 : jstr (index e "method") = "item/agentMessage/delta"
  · cases b <;> simp [handleEvt, h1, consumed]
  by_cases h2 : jstr (index e "method") = "item/reasoning/summaryTextDelta"
  · simp [handleEvt, h2, consumed]
  by_cases h3 : jstr (index e "method") = "item/started"
  · simp only [handleEvt, h3]
    simp only [String.reduceEq, if_false, if_true]
    split_ifs <;> simp [consumed, consumed_map_print]
  by_cases h4 : jstr (index e "method") = "item/commandExecution/outputDelta"
  · simp [handleEvt, h4, consumed]
  by_cases h5 : jstr (index e "method") = "item/fileChange/outputDelta"
  · simp [handleEvt, h5, consumed]
  by_cases h6 : jstr (index e "method") = "item/commandExecution/requestApproval"
  · cases hid : index e "id" <;> simp [handleEvt, h6, hid, consumed]
  by_cases h7 : jstr (index e "method") = "item/fileChange/requestApproval"
  · cases hid : index e "id" <;> simp [handleEvt, h7, hid, consumed]
  by_cases h8 : jstr (index e "method") = "error"
  · simp [handleEvt, h8, consumed]
  by_cases h9 : jstr (index e "method") = "turn/completed"
  · cases herr : (unmarshalTurn eqFold (index e "params")).error <;> cases b <;>
      simp [handleEvt, h9, herr, consumed]
  · rw [handleEvt_unhandled eqFold b e (by simp [handledMethods, h1, h2, h3, h4, h5, h6, h7, h8, h9])]
    rfl

/-- Removing an unhandled event from the channel: either the turn completes before
it is reached, or it is received and nothing else changes. -/
theorem turnLoop_unhandled (eqFold : String → String → Bool) (e : rawEvt)
    (post : List rawEvt) (h : jstr (index e "method") ∉ handledMethods) :
    ∀ (pre : List rawEvt) (b : Bool),
      ((turnLoop eqFold b (pre ++ e :: post)).trace = (turnLoop eqFold b (pre ++ post)).trace ∧
        (turnLoop eqFold b (pre ++ e :: post)).completed =
          (turnLoop eqFold b (pre ++ post)).completed ∧
        ∃ s, (turnLoop eqFold b (pre ++ e :: post)).rest = s ++ e :: post ∧
          (turnLoop eqFold b (pre ++ post)).rest = s ++ post) ∨
      (∃ t1 t2, (turnLoop eqFold b (pre ++ e :: post)).trace = t1 ++ Effect.recv e :: t2 ∧
        (turnLoop eqFold b (pre ++ post)).trace = t1 ++ t2 ∧ consumed t1 = pre ∧
        (turnLoop eqFold b (pre ++ e :: post)).rest = (turnLoop eqFold b (pre ++ post)).rest ∧
        (turnLoop eqFold b (pre ++ e :: post)).completed =
          (turnLoop eqFold b (pre ++ post)).completed) := by
  intro pre
  induction pre with
  | nil =>
    intro b
    right
    refine ⟨[], (turnLoop eqFold b post).trace, ?_, ?_, rfl, ?_, ?_⟩ <;>
      simp [turnLoop, handleEvt_unhandled eqFold b e h]
  | cons a pre ih =>
    intro b
    cases hd : (handleEvt eqFold b a).done with
    | true =>
      left
      simp only [List.cons_append]
      rw [turnLoop_cons_done eqFold b a _ hd, turnLoop_cons_done eqFold b a _ hd]
      exact ⟨rfl, rfl, pre, rfl, rfl⟩
    | false =>
      simp only [List.cons_append]
      rw [turnLoop_cons_next eqFold b a _ hd, turnLoop_cons_next eqFold b a _ hd]
      rcases ih (handleEvt eqFold b a).agentPrinted with ⟨h1, h2, s, h3, h4⟩ | ⟨t1, t2, h1, h2, h3, h4, h5⟩
      · left
        exact ⟨by simp [h1], h2, s, h3, h4⟩
      · right
        refine ⟨Effect.recv a :: ((handleEvt eqFold b a).out ++ t1), t2, ?_, ?_, ?_, h4, h5⟩
        · simp [h1]
        · simp [h2]
        · simp [consumed, consumed_append, handleEvt_out_no_recv, h3]

theorem handleEvt_not_done (eqFold : String → String → Bool) (b : Bool) (e : rawEvt)
    (h : jstr (index e "method") ≠ "turn/completed") : (handleEvt eqFold b e).done = false := by
  by_cases h1 : jstr (index e "method") = "item/agentMessage/delta"
  · cases b <;> simp [handleEvt, h1]
  by_cases h2 : jstr (index e "method") = "item/reasoning/summaryTextDelta"
  · simp [handleEvt, h2]
  by_cases h3 : jstr (index e "method") = "item/started"
  · simp only [handleEvt, h3]
    simp only [String.reduceEq, if_false, if_true]
    split_ifs <;> rfl
  by_cases h4 : jstr (index e "method") = "item/commandExecution/outputDelta"
  · simp [handleEvt, h4]
  by_cases h5 : jstr (index e "method") = "item/fileChange/outputDelta"
  · simp [handleEvt, h5]
  by_cases h6 : jstr (index e "method") = "item/commandExecution/requestApproval"
  · cases hid : index e "id" <;> simp [handleEvt, h6, hid]
  by_cases h7 : jstr (index e "method") = "item/fileChange/requestApproval"
  · cases hid : index e "id" <;> simp [handleEvt, h7, hid]
  by_cases h8 : jstr (index e "method") = "error"
  · simp [handleEvt, h8]
  · rw [handleEvt_unhandled eqFold b e (by simp [handledMethods, h1, h2, h3, h4, h5, h6, h7, h8, h])]

/-- A prefix without `turn/completed` is handled in full and the loop goes on. -/
theorem turnLoop_append (eqFold : String → String → Bool) (rest : List rawEvt) :
    ∀ (pre : List rawEvt) (b : Bool),
      (∀ m ∈ pre, jstr (index m "method") ≠ "turn/completed") →
      turnLoop eqFold b (pre ++ rest) =
        ⟨(turnLoop eqFold b pre).trace ++
            (turnLoop eqFold (agentPrintedAfter eqFold b pre) rest).trace,
          (turnLoop eqFold (agentPrintedAfter eqFold b pre) rest).rest,
          (turnLoop eqFold (agentPrintedAfter eqFold b pre) rest).completed⟩ := by
  intro pre
  induction pre with
  | nil => intro b _; simp [turnLoop, agentPrintedAfter]
  | cons a pre ih =>
    intro b h
    have hd := handleEvt_not_done eqFold b a (h a (List.mem_cons_self _ _))
    have ih2 := ih (handleEvt eqFold b a).agentPrinted
      (fun m hm => h m (List.mem_cons_of_mem _ hm))
    simp only [List.cons_append]
    rw [turnLoop_cons_next eqFold b a _ hd, turnLoop_cons_next eqFold b a _ hd, ih2]
    simp [agentPrintedAfter]

/-- The loop of `processTurn` on agent message deltas followed by `turn/completed`,
once the header has been printed. -/
theorem turnLoop_deltas_printed (eqFold : String → String → Bool) (done : rawEvt)
    (post : List rawEvt) (hdone : jstr (index done "method") = "turn/completed")
    (herr : (unmarshalTurn eqFold (index done "params")).error = none) :
    ∀ evs : List rawEvt, (∀ e ∈ evs, jstr (index e "method") = "item/agentMessage/delta") →
      printed (turnLoop eqFold true (evs ++ done :: post)).trace =
        concat (evs.map (deltaOf eqFold)) ++ "\n" ∧
      sent (turnLoop eqFold true (evs ++ done :: post)).trace = [] ∧
      consumed (turnLoop eqFold true (evs ++ done :: post)).trace = evs ++ [done] ∧
      (turnLoop eqFold true (evs ++ done :: post)).rest = post ∧
      (turnLoop eqFold true (evs ++ done :: post)).completed = true := by
  intro evs
  induction evs with
  | nil =>
    intro _
    have hd : (handleEvt eqFold true done).done = true := by
      rw [handleEvt_completed eqFold true done hdone herr]
    rw [List.nil_append, turnLoop_cons_done eqFold true done post hd,
      handleEvt_completed eqFold true done hdone herr]
    simp [printed, sent, consumed, concat]
  | cons a evs ih =>
    intro h
    have ha := h a (List.mem_cons_self _ _)
    obtain ⟨i1, i2, i3, i4, i5⟩ := ih (fun m hm => h m (List.mem_cons_of_mem _ hm))
    have hstep := handleEvt_delta eqFold true a ha
    simp only [if_true] at hstep
    have hd : (handleEvt eqFold true a).done = false := by rw [hstep]
    simp only [List.cons_append]
    rw [turnLoop_cons_next eqFold true a _ hd, hstep]
    simp [printed, sent, consumed, concat, i1, i2, i3, i4, i5, String.append_assoc]

/-! ## Properties of `waitResp` -/

/-- Claim C1 says that `waitResp X` is satisfied only by a Response with id `X` and
returns its result. The code misses it: with the server request `exApproval 1`
(which has a method, so it is not a Response) ahead of the Response for id 1,
`waitResp 1` is satisfied by the server request, returns the nil message instead
of the result of the Response, and leaves the Response on the channel. -/
theorem waitResp_satisfied_by_server_request :
    isServerRequest (exApproval 1) = true ∧ isResponse (exApproval 1) = false ∧
    isResponse exResponse = true ∧ idMatches 1 exResponse = true ∧
    index exResponse "error" = none ∧
    waitResp equalFold 1 [exApproval 1, exResponse] =
      (WaitOutcome.returned none, [exResponse]) ∧
    (waitResp equalFold 1 [exApproval 1, exResponse]).1 ≠
      WaitOutcome.returned (index exResponse "result") := by
  refine ⟨rfl, rfl, rfl, rfl, rfl, rfl, ?_⟩
  intro h
  have h1 : (waitResp equalFold 1 [exApproval 1, exResponse]).1 =
      WaitOutcome.returned none := rfl
  have h2 : index exResponse "result" = some exModels := rfl
  rw [h1, h2] at h
  cases h

/-- Claim C2, as stated, fails: a notification and a server request that arrive before
the Response for id 1 are consumed by `waitResp 1`; after it returns the channel
holds only what came after the Response, and `processTurn` receives neither. -/
theorem waitResp_drops_earlier_events :
    isNotification exDeltaHi = true ∧ isServerRequest (exApproval 7) = true ∧
    waitResp equalFold 1 [exDeltaHi, exApproval 7, exResponse, exCompleted] =
      (WaitOutcome.returned (some exModels), [exCompleted]) ∧
    consumed (processTurn equalFold
      (waitResp equalFold 1 [exDeltaHi, exApproval 7, exResponse, exCompleted]).2).trace =
      [exCompleted] ∧
    sent (processTurn equalFold
      (waitResp equalFold 1 [exDeltaHi, exApproval 7, exResponse, exCompleted]).2).trace =
      [] ∧
    printed (processTurn equalFold
      (waitResp equalFold 1 [exDeltaHi, exApproval 7, exResponse, exCompleted]).2).trace =
      "" :=
  ⟨rfl, rfl, rfl, rfl, rfl, rfl⟩

/-- Claim C2, amended: `waitResp X` drains the channel up to the first message with
the requested id. After it returns, the events available to `processTurn` are
exactly the messages that came after that message, in their original order; the
messages before it are consumed and not delivered again, and when no message has
the requested id nothing is left. -/
theorem waitResp_leaves_suffix (eqFold : String → String → Bool) (X : Int)
    (evts : List rawEvt) :
    (∀ pre e post, evts = pre ++ e :: post → (∀ m ∈ pre, idMatches X m = false) →
      idMatches X e = true →
      (waitResp eqFold X evts).2 = post ∧
      processTurn eqFold (waitResp eqFold X evts).2 = processTurn eqFold post) ∧
    ((∀ m ∈ evts, idMatches X m = false) → (waitResp eqFold X evts).2 = []) := by
  constructor
  · intro pre e post hsplit hpre he
    have hrest : (waitResp eqFold X evts).2 = post := by
      rw [hsplit, waitResp_skip eqFold X pre _ hpre]
      cases herr : index e "error" with
      | none => rw [waitResp_hit_result eqFold X e post he herr]
      | some errRaw => rw [waitResp_hit_error eqFold X e post errRaw he herr]
    exact ⟨hrest, by rw [hrest]⟩
  · intro h
    rw [waitResp_no_match eqFold X evts h]

/-- Concrete instance: a notification and a server request ahead of the Response. -/
theorem waitResp_leaves_suffix_witness :
    (∀ m ∈ [exDeltaHi, exApproval 7], idMatches 1 m = false) ∧
    idMatches 1 exResponse = true ∧
    (waitResp equalFold 1 [exDeltaHi, exApproval 7, exResponse, exDeltaThere, exCompleted]).2 =
      [exDeltaThere, exCompleted] :=
  ⟨by decide, rfl,
   ((waitResp_leaves_suffix equalFold 1
      [exDeltaHi, exApproval 7, exResponse, exDeltaThere, exCompleted]).1
      [exDeltaHi, exApproval 7] exResponse [exDeltaThere, exCompleted] rfl (by decide) rfl).1⟩

/-- Claim C3, as stated, fails: when the stream closes without a Response for id 1,
`waitResp 1` returns the nil message with no error, which is the very outcome of
the successful wait for `{"id":1}`, a Response whose result is absent. -/
theorem waitResp_closed_same_as_absent_result :
    isResponse exBareResponse = true ∧ idMatches 1 exBareResponse = true ∧
    (∀ m ∈ [exDeltaHi], idMatches 1 m = false) ∧
    (waitResp equalFold 1 [exDeltaHi]).1 = WaitOutcome.returned none ∧
    (waitResp equalFold 1 [exDeltaHi, exBareResponse]).1 = WaitOutcome.returned none ∧
    (waitResp equalFold 1 [exDeltaHi]).1 =
      (waitResp equalFold 1 [exDeltaHi, exBareResponse]).1 :=
  ⟨rfl, rfl, by decide, rfl, rfl, rfl⟩

/-- Claim C3, amended: for every finite stream that ends without a message whose id
decodes to `X`, `waitResp X` terminates, consumes the whole stream and returns the
nil message; it raises no error. That outcome differs from a Protocol Error (the
call to `fatal`) and from the return of a `result` that is present, `null`
included. -/
theorem waitResp_stream_closed (eqFold : String → String → Bool) (X : Int)
    (evts : List rawEvt) (h : ∀ m ∈ evts, idMatches X m = false) :
    waitResp eqFold X evts = (WaitOutcome.returned none, []) ∧
    (∀ line status, (waitResp eqFold X evts).1 ≠ WaitOutcome.exited line status) ∧
    (∀ v, (waitResp eqFold X evts).1 ≠ WaitOutcome.returned (some v)) ∧
    (∀ e post, idMatches X e = true → index e "error" = none →
      (index e "result").isSome = true →
      (waitResp eqFold X (evts ++ e :: post)).1 ≠ (waitResp eqFold X evts).1) ∧
    (∀ e post, idMatches X e = true → (index e "error").isSome = true →
      (waitResp eqFold X (evts ++ e :: post)).1 ≠ (waitResp eqFold X evts).1) := by
  have h0 := waitResp_no_match eqFold X evts h
  refine ⟨h0, ?_, ?_, ?_, ?_⟩
  · intro line status hx
    rw [h0] at hx
    cases hx
  · intro v hx
    rw [h0] at hx
    cases hx
  · intro e post he herr hres hx
    rw [h0, waitResp_skip eqFold X evts _ h, waitResp_hit_result eqFold X e post he herr] at hx
    cases hr : index e "result" with
    | none => rw [hr] at hres; cases hres
    | some v => rw [hr] at hx; cases hx
  · intro e post he herr hx
    cases hr : index e "error" with
    | none => rw [hr] at herr; cases herr
    | some errRaw =>
      rw [h0, waitResp_skip eqFold X evts _ h,
        waitResp_hit_error eqFold X e post errRaw he hr] at hx
      cases hx

/-- Concrete instance: a stream of two notifications and a response
for another id. -/
theorem waitResp_stream_closed_witness :
    (∀ m ∈ [exDeltaHi, exResponse, exCompleted], idMatches 2 m = false) ∧
    waitResp equalFold 2 [exDeltaHi, exResponse, exCompleted] =
      (WaitOutcome.returned none, []) :=
  ⟨by decide,
   (waitResp_stream_closed equalFold 2 [exDeltaHi, exResponse, exCompleted] (by decide)).1⟩

/-- Claim C4, as stated, fails: for the response
`{"id":1,"error":{"message":"boom","Message":"trace"}}` the `message` string of the
error object is `boom`, yet `waitResp 1` fails with `server error: trace`, because
`encoding/json` also stores the member `Message`, which comes later. -/
theorem waitResp_diagnostic_not_message_member :
    idMatches 1 exFoldedErrorResponse = true ∧
    index exFoldedErrorResponse "error" =
      some (Json.obj [("message", Json.str "boom"), ("Message", Json.str "trace")]) ∧
    List.lookup "message" [("message", Json.str "boom"), ("Message", Json.str "trace")] =
      some (Json.str "boom") ∧
    (waitResp equalFold 1 [exFoldedErrorResponse]).1 =
      WaitOutcome.exited "server error: trace\n" 1 ∧
    (waitResp equalFold 1 [exFoldedErrorResponse]).1 ≠
      WaitOutcome.exited "server error: boom\n" 1 := by
  have h : (waitResp equalFold 1 [exFoldedErrorResponse]).1 =
      WaitOutcome.exited "server error: trace\n" 1 := by
    rw [waitResp_hit_error equalFold 1 exFoldedErrorResponse []
      (Json.obj [("message", Json.str "boom"), ("Message", Json.str "trace")]) rfl rfl,
      unmarshal_message_eq]
    rfl
  refine ⟨rfl, rfl, rfl, h, ?_⟩
  rw [h]
  intro hc
  injection hc with h1 _
  exact absurd h1 (by decide)

/-- Claim C4, amended: `waitResp X` fails (reaches `fatal`) exactly when the first
message whose id is `X` has an `error` key. It then exits with status 1 after
writing `server error: `, the server message and a newline, where the server
message is what `encoding/json` decodes from the value of `error`: the string of
the last member of the error object whose key is `message` up to case folding and
whose value is a string, and the empty string when there is no such member or the
value is not an object. For an error object whose only member with a key equal to
`message` up to case folding is `"message": s`, whatever its other members, the
server message is `s`. When the first message whose id is `X` has no `error` key
the call does not fail and returns its `result`. The id of a message is `X` when
`jint` decodes its `id` to `X`, which for `X ≠ 0` in the range of `int64` means
that its `id` is the integer `X`. -/
theorem waitResp_protocol_error_iff (eqFold : String → String → Bool) (X : Int)
    (evts : List rawEvt) :
    ((∃ line status, (waitResp eqFold X evts).1 = WaitOutcome.exited line status) ↔
      ∃ e, evts.find? (idMatches X) = some e ∧ (index e "error").isSome = true) ∧
    (∀ e errRaw, evts.find? (idMatches X) = some e → index e "error" = some errRaw →
      (waitResp equalFold X evts).1 =
        WaitOutcome.exited ("server error: " ++ errorMessage errRaw ++ "\n") 1) ∧
    (∀ (kvs : List (String × Json)) (s : String),
      membersFold "message" kvs = [("message", Json.str s)] →
      errorMessage (Json.obj kvs) = s) ∧
    (∀ e, evts.find? (idMatches X) = some e → index e "error" = none →
      (waitResp eqFold X evts).1 = WaitOutcome.returned (index e "result")) ∧
    (∀ e : rawEvt, X ≠ 0 → minInt64 ≤ X → X ≤ maxInt64 →
      (idMatches X e = true ↔ index e "id" = some (Json.int X))) := by
  have hres : ∀ e, evts.find? (idMatches X) = some e → index e "error" = none →
      (waitResp eqFold X evts).1 = WaitOutcome.returned (index e "result") := by
    intro e hfind herr
    obtain ⟨pre, post, hsplit, hpre, he⟩ := find_idMatches_split X evts e hfind
    rw [hsplit, waitResp_skip eqFold X pre _ hpre, waitResp_hit_result eqFold X e post he herr]
  have herror : ∀ (ef : String → String → Bool) e errRaw,
      evts.find? (idMatches X) = some e → index e "error" = some errRaw →
      (waitResp ef X evts).1 =
        WaitOutcome.exited
          ("server error: " ++ unmarshalStrStruct ef "message" (some errRaw) ++ "\n") 1 := by
    intro ef e errRaw hfind herr
    obtain ⟨pre, post, hsplit, hpre, he⟩ := find_idMatches_split X evts e hfind
    rw [hsplit, waitResp_skip ef X pre _ hpre, waitResp_hit_error ef X e post errRaw he herr]
  refine ⟨⟨?_, ?_⟩, ?_, ?_, hres, fun e h0 hlo hhi => idMatches_iff_int X e h0 hlo hhi⟩
  · rintro ⟨line, status, hx⟩
    cases hfind : evts.find? (idMatches X) with
    | none =>
      rw [waitResp_no_match eqFold X evts (find_idMatches_none X evts hfind)] at hx
      cases hx
    | some e =>
      refine ⟨e, rfl, ?_⟩
      cases herr : index e "error" with
      | none =>
        rw [hres e hfind herr] at hx
        cases hx
      | some errRaw => rfl
  · rintro ⟨e, hfind, herr⟩
    cases hr : index e "error" with
    | none => rw [hr] at herr; cases herr
    | some errRaw => exact ⟨_, _, herror eqFold e errRaw hfind hr⟩
  · intro e errRaw hfind herr
    rw [herror equalFold e errRaw hfind herr, unmarshal_message_eq]
  · intro kvs s h
    exact strMember_of_only_member "message" kvs s h

/-- Concrete instance: the error response `{"message":"boom","data":"trace","code":-32000}`
for id 1 behind a notification fails with the message `boom`. -/
theorem waitResp_protocol_error_iff_witness :
    [exDeltaHi, exRichErrorResponse, exResponse].find? (idMatches 1) =
      some exRichErrorResponse ∧
    membersFold "message" [("message", Json.str "boom"), ("data", Json.str "trace"),
      ("code", Json.int (-32000))] = [("message", Json.str "boom")] ∧
    errorMessage (Json.obj [("message", Json.str "boom"), ("data", Json.str "trace"),
      ("code", Json.int (-32000))]) = "boom" ∧
    (waitResp equalFold 1 [exDeltaHi, exRichErrorResponse, exResponse]).1 =
      WaitOutcome.exited
        ("server error: " ++ errorMessage (Json.obj [("message", Json.str "boom"),
          ("data", Json.str "trace"), ("code", Json.int (-32000))]) ++ "\n") 1 :=
  ⟨rfl, rfl,
   (waitResp_protocol_error_iff equalFold 1
      [exDeltaHi, exRichErrorResponse, exResponse]).2.2.1
      [("message", Json.str "boom"), ("data", Json.str "trace"), ("code", Json.int (-32000))]
      "boom" rfl,
   (waitResp_protocol_error_iff equalFold 1
      [exDeltaHi, exRichErrorResponse, exResponse]).2.1
      exRichErrorResponse
      (Json.obj [("message", Json.str "boom"), ("data", Json.str "trace"),
        ("code", Json.int (-32000))]) rfl rfl⟩

/-! ## Properties of `processTurn` -/

/-- Claim C5, as stated, fails: for the approval request whose id is the integer
9223372036854775808, `processTurn` replies with id 0, because `jint` decodes an
integer outside the range of `int64` to 0. -/
theorem processTurn_approval_id_out_of_range :
    jstr (index (exApproval 9223372036854775808) "method") =
      "item/commandExecution/requestApproval" ∧
    index (exApproval 9223372036854775808) "id" = some (Json.int 9223372036854775808) ∧
    sent (processTurn equalFold [exApproval 9223372036854775808]).trace =
      [Json.obj [("id", Json.int 0), ("result", Json.str "accept")]] ∧
    sent (processTurn equalFold [exApproval 9223372036854775808]).trace ≠
      [Json.obj [("id", Json.int 9223372036854775808), ("result", Json.str "accept")]] := by
  have h : sent (processTurn equalFold [exApproval 9223372036854775808]).trace =
      [Json.obj [("id", Json.int 0), ("result", Json.str "accept")]] := by
    simp [processTurn, turnLoop, handleEvt, exApproval, index, List.lookup, jstr, jint,
      minInt64, maxInt64, acceptReply, sent]
  refine ⟨rfl, rfl, h, ?_⟩
  rw [h]
  simp

/-- Claim C5, amended: for every event that `processTurn` consumes during a turn whose
method is an approval request and which has an `id`, `processTurn` prints one line
and sends exactly one message, `{"id": jint(id), "result": "accept"}` with no
method and no error, where `jint(id)` is `n` when the id is an integer `n` in the
range of `int64`; it sends it before it receives the next event from the channel,
and it goes on with the turn, `agentPrinted` unchanged. -/
theorem processTurn_auto_approve (eqFold : String → String → Bool) (pre : List rawEvt)
    (evt : rawEvt) (post : List rawEvt) (idRaw : Json)
    (hpre : ∀ m ∈ pre, jstr (index m "method") ≠ "turn/completed")
    (hm : jstr (index evt "method") = "item/commandExecution/requestApproval" ∨
      jstr (index evt "method") = "item/fileChange/requestApproval")
    (hid : index evt "id" = some idRaw) :
    (∃ line, (processTurn eqFold (pre ++ evt :: post)).trace =
      (processTurn eqFold pre).trace ++
        Effect.recv evt :: Effect.print line :: Effect.send (acceptReply (jint (some idRaw))) ::
          (turnLoop eqFold (agentPrintedAfter eqFold false pre) post).trace) ∧
    (processTurn eqFold (pre ++ evt :: post)).rest =
      (turnLoop eqFold (agentPrintedAfter eqFold false pre) post).rest ∧
    (processTurn eqFold (pre ++ evt :: post)).completed =
      (turnLoop eqFold (agentPrintedAfter eqFold false pre) post).completed ∧
    (∀ nxt post2, post = nxt :: post2 →
      ∃ t, (turnLoop eqFold (agentPrintedAfter eqFold false pre) post).trace =
        Effect.recv nxt :: t) ∧
    (∀ n, idRaw = Json.int n → minInt64 ≤ n → n ≤ maxInt64 →
      acceptReply (jint (some idRaw)) =
        Json.obj [("id", Json.int n), ("result", Json.str "accept")]) := by
  obtain ⟨line, hstep⟩ :=
    handleEvt_approval eqFold (agentPrintedAfter eqFold false pre) evt idRaw hm hid
  have hd : (handleEvt eqFold (agentPrintedAfter eqFold false pre) evt).done = false := by
    rw [hstep]
  have hrun := turnLoop_append eqFold (evt :: post) pre false hpre
  rw [turnLoop_cons_next eqFold _ evt post hd, hstep] at hrun
  refine ⟨⟨line, ?_⟩, ?_, ?_, ?_, ?_⟩
  · simp [processTurn, hrun]
  · simp [processTurn, hrun]
  · simp [processTurn, hrun]
  · intro nxt post2 hpost
    subst hpost
    cases hdn : (handleEvt eqFold (agentPrintedAfter eqFold false pre) nxt).done with
    | true => exact ⟨_, by rw [turnLoop_cons_done eqFold _ nxt post2 hdn]⟩
    | false => exact ⟨_, by rw [turnLoop_cons_next eqFold _ nxt post2 hdn]⟩
  · intro n hn hlo hhi
    subst hn
    simp [acceptReply, jint, hlo, hhi]

/-- Concrete instance: the approval request with id 7 in the
middle of an agent message. -/
theorem processTurn_auto_approve_witness :
    (∀ m ∈ [exDeltaHi], jstr (index m "method") ≠ "turn/completed") ∧
    jstr (index (exApproval 7) "method") = "item/commandExecution/requestApproval" ∧
    index (exApproval 7) "id" = some (Json.int 7) ∧
    (∃ line, (processTurn equalFold ([exDeltaHi] ++ exApproval 7 :: [exDeltaThere])).trace =
      (processTurn equalFold [exDeltaHi]).trace ++
        Effect.recv (exApproval 7) :: Effect.print line ::
          Effect.send (acceptReply (jint (some (Json.int 7)))) ::
          (turnLoop equalFold (agentPrintedAfter equalFold false [exDeltaHi])
            [exDeltaThere]).trace) ∧
    sent (processTurn equalFold [exDeltaHi, exApproval 7, exDeltaThere]).trace =
      [Json.obj [("id", Json.int 7), ("result", Json.str "accept")]] :=
  ⟨by decide, rfl, rfl,
   (processTurn_auto_approve equalFold [exDeltaHi] (exApproval 7) [exDeltaThere] (Json.int 7)
      (by decide) (Or.inl rfl) rfl).1,
   by simp [processTurn, turnLoop, handleEvt, exApproval, exDeltaHi, exDeltaThere, index,
      List.lookup, jstr, jint, minInt64, maxInt64, acceptReply, sent]⟩

/-- Claim C8: an event whose method is not one of the nine handled names (no method
key and a method that is not a string included) is a no-op of `processTurn`: the
iteration prints nothing, sends nothing, keeps `agentPrinted` and does not
return. Processing `pre ++ e :: post` therefore gives the same output, the same
outbound messages and the same end of the turn as processing `pre ++ post`, and
the same split of the other events: either the turn completes inside `pre` and `e`
stays on the channel, or `e` is received after `pre` and what is consumed after it
and what is left are the same. -/
theorem processTurn_unhandled_noop (eqFold : String → String → Bool) (pre : List rawEvt)
    (e : rawEvt) (post : List rawEvt) (h : jstr (index e "method") ∉ handledMethods) :
    (∀ b, handleEvt eqFold b e = ⟨[], b, false⟩) ∧
    printed (processTurn eqFold (pre ++ e :: post)).trace =
      printed (processTurn eqFold (pre ++ post)).trace ∧
    sent (processTurn eqFold (pre ++ e :: post)).trace =
      sent (processTurn eqFold (pre ++ post)).trace ∧
    (processTurn eqFold (pre ++ e :: post)).completed =
      (processTurn eqFold (pre ++ post)).completed ∧
    ((consumed (processTurn eqFold (pre ++ e :: post)).trace =
        consumed (processTurn eqFold (pre ++ post)).trace ∧
      ∃ s, (processTurn eqFold (pre ++ e :: post)).rest = s ++ e :: post ∧
        (processTurn eqFold (pre ++ post)).rest = s ++ post) ∨
     (∃ c, consumed (processTurn eqFold (pre ++ e :: post)).trace = pre ++ e :: c ∧
        consumed (processTurn eqFold (pre ++ post)).trace = pre ++ c ∧
        (processTurn eqFold (pre ++ e :: post)).rest =
          (processTurn eqFold (pre ++ post)).rest)) := by
  refine ⟨fun b => handleEvt_unhandled eqFold b e h, ?_⟩
  unfold processTurn
  rcases turnLoop_unhandled eqFold e post h pre false with
    ⟨h1, h2, s, h3, h4⟩ | ⟨t1, t2, h1, h2, h3, h4, h5⟩
  · refine ⟨by rw [h1], by rw [h1], h2, Or.inl ⟨by rw [h1], s, h3, h4⟩⟩
  · refine ⟨?_, ?_, h5, Or.inr ⟨consumed t2, ?_, ?_, h4⟩⟩
    · rw [h1, h2, printed_append, printed_append]; rfl
    · rw [h1, h2, sent_append, sent_append]; rfl
    · rw [h1, consumed_append, h3]; rfl
    · rw [h2, consumed_append, h3]

/-- Concrete instance: the response `{"id":1,"result":...}`,
which has no method, between two agent message deltas. -/
theorem processTurn_unhandled_noop_witness :
    jstr (index exResponse "method") ∉ handledMethods ∧
    printed (processTurn equalFold
      ([exDeltaHi] ++ exResponse :: [exDeltaThere, exCompleted])).trace =
      printed (processTurn equalFold ([exDeltaHi] ++ [exDeltaThere, exCompleted])).trace ∧
    printed (processTurn equalFold ([exDeltaHi] ++ [exDeltaThere, exCompleted])).trace =
      "\nagent> Hi there\n" :=
  ⟨by decide,
   (processTurn_unhandled_noop equalFold [exDeltaHi] exResponse [exDeltaThere, exCompleted]
      (by decide)).2.1,
   rfl⟩

/-- Claim C9, as stated, fails: for the notification with params
`{"delta":"Hi","Delta":"Ho"}`, in which `params.delta` is `Hi`, followed by
`turn/completed` without error payload, `processTurn` renders `Ho`, because
`encoding/json` also stores the member `Delta`, which comes later. -/
theorem processTurn_renders_folded_member :
    index exFoldedDelta "method" = some (Json.str "item/agentMessage/delta") ∧
    index exFoldedDelta "params" =
      some (Json.obj [("delta", Json.str "Hi"), ("Delta", Json.str "Ho")]) ∧
    List.lookup "delta" [("delta", Json.str "Hi"), ("Delta", Json.str "Ho")] =
      some (Json.str "Hi") ∧
    hasErrorPayload exCompleted = false ∧
    printed (processTurn equalFold [exFoldedDelta, exCompleted]).trace = "\nagent> Ho\n" ∧
    printed (processTurn equalFold [exFoldedDelta, exCompleted]).trace ≠ "\nagent> Hi\n" := by
  have h : printed (processTurn equalFold [exFoldedDelta, exCompleted]).trace =
      "\nagent> Ho\n" := by
    have hstep := handleEvt_delta equalFold false exFoldedDelta rfl
    have hdelta : deltaOf equalFold exFoldedDelta = "Ho" := by
      rw [deltaOf_eq]
      rfl
    have hdone := handleEvt_completed equalFold true exCompleted rfl rfl
    simp only [Bool.false_eq_true, if_false, if_true, hdelta] at hstep hdone
    simp [processTurn, turnLoop, hstep, hdone, printed]
    decide
  refine ⟨rfl, rfl, rfl, rfl, h, ?_⟩
  rw [h]
  decide

/-- Claim C9, amended: for a non-empty list of `item/agentMessage/delta` notifications
followed by a `turn/completed` notification whose payload carries no error,
`processTurn` writes the header `\nagent> ` once, then `d1 ++ ... ++ dn` in
order, then one newline, and nothing else, where `di` is the delta that
`encoding/json` decodes from the i-th `params`: the string of the last member
whose key is `delta` up to case folding and whose value is a string. It sends no
message and returns at `turn/completed` having received exactly these events, so
that every later event stays on the channel. When the only member of `params` with
a key equal to `delta` up to case folding is `"delta": d`, whatever its other
members, the delta is `d`, so that `Hi` then ` there` gives `Hi there`. -/
theorem processTurn_agent_message (evs : List rawEvt) (done : rawEvt) (post : List rawEvt)
    (hne : evs ≠ [])
    (hdelta : ∀ e ∈ evs, index e "method" = some (Json.str "item/agentMessage/delta"))
    (hdone : index done "method" = some (Json.str "turn/completed"))
    (herr : hasErrorPayload done = false) :
    printed (processTurn equalFold (evs ++ done :: post)).trace =
      "\nagent> " ++ concat (evs.map payloadDelta) ++ "\n" ∧
    sent (processTurn equalFold (evs ++ done :: post)).trace = [] ∧
    consumed (processTurn equalFold (evs ++ done :: post)).trace = evs ++ [done] ∧
    (processTurn equalFold (evs ++ done :: post)).rest = post ∧
    (processTurn equalFold (evs ++ done :: post)).completed = true ∧
    (∀ (e : rawEvt) (kvs : List (String × Json)) (d : String),
      index e "params" = some (Json.obj kvs) →
      membersFold "delta" kvs = [("delta", Json.str d)] → payloadDelta e = d) ∧
    (∀ ds : List String,
      List.Forall₂ (fun (e : rawEvt) (d : String) =>
        ∃ kvs, index e "params" = some (Json.obj kvs) ∧
          membersFold "delta" kvs = [("delta", Json.str d)]) evs ds →
      printed (processTurn equalFold (evs ++ done :: post)).trace =
        "\nagent> " ++ concat ds ++ "\n") := by
  have hpayload : ∀ (e : rawEvt) (kvs : List (String × Json)) (d : String),
      index e "params" = some (Json.obj kvs) →
      membersFold "delta" kvs = [("delta", Json.str d)] → payloadDelta e = d := by
    intro e kvs d hp hm
    unfold payloadDelta
    rw [hp]
    exact strMember_of_only_member "delta" kvs d hm
  have hmethod : ∀ e ∈ evs, jstr (index e "method") = "item/agentMessage/delta" := by
    intro e he
    rw [hdelta e he]
    rfl
  have hdone2 : jstr (index done "method") = "turn/completed" := by
    rw [hdone]
    rfl
  have herr2 : (unmarshalTurn equalFold (index done "params")).error = none := by
    have h := unmarshalTurn_error done
    rw [herr] at h
    cases hx : (unmarshalTurn equalFold (index done "params")).error with
    | none => rfl
    | some m => rw [hx] at h; cases h
  have hprinted : printed (processTurn equalFold (evs ++ done :: post)).trace =
        "\nagent> " ++ concat (evs.map payloadDelta) ++ "\n" ∧
      sent (processTurn equalFold (evs ++ done :: post)).trace = [] ∧
      consumed (processTurn equalFold (evs ++ done :: post)).trace = evs ++ [done] ∧
      (processTurn equalFold (evs ++ done :: post)).rest = post ∧
      (processTurn equalFold (evs ++ done :: post)).completed = true := by
    cases evs with
    | nil => exact absurd rfl hne
    | cons a evs =>
      have ha := hmethod a (List.mem_cons_self _ _)
      obtain ⟨i1, i2, i3, i4, i5⟩ :=
        turnLoop_deltas_printed equalFold done post hdone2 herr2 evs
          (fun m hm => hmethod m (List.mem_cons_of_mem _ hm))
      have hstep := handleEvt_delta equalFold false a ha
      simp only [Bool.false_eq_true, if_false] at hstep
      have hd : (handleEvt equalFold false a).done = false := by rw [hstep]
      have hmap : List.map (deltaOf equalFold) evs = List.map payloadDelta evs :=
        List.map_congr_left (fun e _ => deltaOf_eq e)
      unfold processTurn
      simp only [List.cons_append]
      rw [turnLoop_cons_next equalFold false a _ hd, hstep]
      refine ⟨?_, ?_, ?_, i4, i5⟩
      · simp [printed, concat, i1, String.append_assoc, deltaOf_eq, hmap]
      · simp [sent, i2]
      · simp [consumed, i3]
  obtain ⟨p1, p2, p3, p4, p5⟩ := hprinted
  refine ⟨p1, p2, p3, p4, p5, hpayload, ?_⟩
  intro ds hds
  have hmap : evs.map payloadDelta = ds := by
    clear p1 p2 p3 p4 p5 hmethod hdelta hne
    induction hds with
    | nil => rfl
    | cons hhead _ ih =>
      obtain ⟨kvs, hp, hm⟩ := hhead
      simp [hpayload _ kvs _ hp hm, ih]
  rw [p1, hmap]

/-- Concrete instance: `Hi` (in params that also have an `itemId`) then ` there` then
`turn/completed` renders `Hi there`, and the event after `turn/completed` is not
consumed. -/
theorem processTurn_agent_message_witness :
    [exDeltaHiItem, exDeltaThere] ≠ [] ∧
    (∀ e ∈ [exDeltaHiItem, exDeltaThere],
      index e "method" = some (Json.str "item/agentMessage/delta")) ∧
    index exCompleted "method" = some (Json.str "turn/completed") ∧
    hasErrorPayload exCompleted = false ∧
    List.Forall₂ (fun (e : rawEvt) (d : String) =>
        ∃ kvs, index e "params" = some (Json.obj kvs) ∧
          membersFold "delta" kvs = [("delta", Json.str d)])
      [exDeltaHiItem, exDeltaThere] ["Hi", " there"] ∧
    printed (processTurn equalFold
      ([exDeltaHiItem, exDeltaThere] ++ exCompleted :: [exApproval 7])).trace =
      "\nagent> " ++ concat ["Hi", " there"] ++ "\n" ∧
    concat ["Hi", " there"] = "Hi there" ∧
    (processTurn equalFold
      ([exDeltaHiItem, exDeltaThere] ++ exCompleted :: [exApproval 7])).rest =
      [exApproval 7] :=
  ⟨by simp, forall_mem_pair _ _ _ rfl rfl, rfl, rfl,
   List.Forall₂.cons ⟨_, rfl, rfl⟩ (List.Forall₂.cons ⟨_, rfl, rfl⟩ List.Forall₂.nil),
   (processTurn_agent_message [exDeltaHiItem, exDeltaThere] exCompleted [exApproval 7]
      (by simp) (forall_mem_pair _ _ _ rfl rfl) rfl rfl).2.2.2.2.2.2 ["Hi", " there"]
      (List.Forall₂.cons ⟨_, rfl, rfl⟩ (List.Forall₂.cons ⟨_, rfl, rfl⟩ List.Forall₂.nil)),
   by decide,
   (processTurn_agent_message [exDeltaHiItem, exDeltaThere] exCompleted [exApproval 7]
      (by simp) (forall_mem_pair _ _ _ rfl rfl) rfl rfl).2.2.2.1⟩

/-! ## Properties of `nextID` -/

theorem wrapInt64_of_range (x : Int) (hlo : minInt64 ≤ x) (hhi : x ≤ maxInt64) :
    wrapInt64 x = x := by
  unfold minInt64 at hlo
  unfold maxInt64 at hhi
  unfold wrapInt64
  omega

theorem nextID_succ (s : Int) (h0 : 0 ≤ s) (h1 : s < maxInt64) : nextID s = (s + 1, s + 1) := by
  have hw : wrapInt64 (s + 1) = s + 1 :=
    wrapInt64_of_range (s + 1) (by unfold minInt64; omega) (by omega)
  simp [nextID, hw]

theorem nextIDs_from (n : Nat) : ∀ s : Int, 0 ≤ s → s + n ≤ maxInt64 →
    nextIDs n s = ((List.range n).map (fun i : Nat => s + 1 + (i : Int)), s + n) := by
  induction n with
  | zero => intro s _ _; simp [nextIDs]
  | succ n ih =>
    intro s h0 h1
    have hstep := nextID_succ s h0 (by push_cast at h1; omega)
    have ih2 := ih (s + 1) (by omega) (by push_cast at h1; omega)
    simp only [nextIDs, hstep, ih2, List.range_succ_eq_map, List.map_cons, List.map_map]
    refine Prod.ext ?_ ?_
    · simp only [Nat.cast_zero, add_zero, List.cons.injEq, true_and]
      apply List.map_congr_left
      intro i _
      simp only [Function.comp, Nat.succ_eq_add_one]
      push_cast
      ring
    · simp only
      push_cast
      ring

/-- Claim C6: from the initial counter, `n` calls of `nextID` with `n` below `2^63`
return `1, 2, ..., n` (the k-th call returns `k`), so the returned values are
strictly increasing, all greater than zero and pairwise different, the counter
ends at `n`, and each call from a counter `s` with `0 ≤ s < 2^63 - 1` returns
`s + 1` and leaves the counter at `s + 1`. -/
theorem nextID_strictly_increasing (n : Nat) (h : (n : Int) ≤ maxInt64) :
    (nextIDs n idSeqInit).1 = (List.range n).map (fun i : Nat => (i : Int) + 1) ∧
    (∀ k, k < n → (nextIDs n idSeqInit).1[k]? = some ((k : Int) + 1)) ∧
    (nextIDs n idSeqInit).2 = n ∧
    List.Pairwise (fun a b => a < b) (nextIDs n idSeqInit).1 ∧
    (∀ v ∈ (nextIDs n idSeqInit).1, 0 < v) ∧
    (nextIDs n idSeqInit).1.Nodup ∧
    (∀ s : Int, 0 ≤ s → s < maxInt64 → nextID s = (s + 1, s + 1)) := by
  have hrun := nextIDs_from n idSeqInit (le_refl _) (by simpa [idSeqInit] using h)
  have hids : (nextIDs n idSeqInit).1 = (List.range n).map (fun i : Nat => (i : Int) + 1) := by
    rw [hrun]
    apply List.map_congr_left
    intro i _
    simp [idSeqInit, add_comm]
  have hpair : List.Pairwise (fun a b => a < b) (nextIDs n idSeqInit).1 := by
    rw [hids, List.pairwise_map]
    exact (List.pairwise_lt_range n).imp (fun hab => by omega)
  refine ⟨hids, ?_, ?_, hpair, ?_, ?_, nextID_succ⟩
  · intro k hk
    rw [hids, List.getElem?_map, List.getElem?_range hk]
    rfl
  · rw [hrun]
    simp [idSeqInit]
  · intro v hv
    rw [hids] at hv
    obtain ⟨i, _, rfl⟩ := List.mem_map.1 hv
    omega
  · exact hpair.imp (fun hab => ne_of_lt hab)

/-- Concrete instance: the first three ids. -/
theorem nextID_strictly_increasing_witness :
    ((3 : Nat) : Int) ≤ maxInt64 ∧ (nextIDs 3 idSeqInit).1 = [1, 2, 3] ∧
    (nextIDs 3 idSeqInit).2 = 3 :=
  ⟨by decide, (nextID_strictly_increasing 3 (by decide)).1,
   (nextID_strictly_increasing 3 (by decide)).2.2.1⟩

/-! ## Properties of the reader goroutine -/

theorem index_assign (m : rawEvt) (k : String) (v : Json) (k2 : String) :
    index (assign m k v) k2 = if k2 = k then some v else index m k2 := by
  by_cases h : k2 = k
  · subst h
    simp [index, assign, List.lookup_cons]
  · have hb : (k2 == k) = false := by simpa using h
    simp only [index, assign, List.lookup_cons, hb, if_neg h]
    induction m with
    | nil => rfl
    | cons p m ih =>
      obtain ⟨a, b⟩ := p
      by_cases ha : a = k
      · subst ha
        simp [List.filter, List.lookup_cons, hb, ih]
      · have hf : (a != k) = true := by simpa using ha
        simp only [List.filter, hf, List.lookup_cons]
        rw [ih]

theorem index_foldl_assign (kvs : List (String × Json)) (k : String) : ∀ m : rawEvt,
    index (kvs.foldl (fun m p => assign m p.1 p.2) m) k =
      (List.lookup k kvs.reverse).or (index m k) := by
  induction kvs with
  | nil => intro m; simp
  | cons p kvs ih =>
    intro m
    obtain ⟨a, b⟩ := p
    simp only [List.foldl_cons, List.reverse_cons, List.lookup_append, ih, index_assign]
    by_cases h : k = a
    · subst h
      cases List.lookup k kvs.reverse <;> simp [List.lookup_cons]
    · have hb : (k == a) = false := by simpa using h
      cases List.lookup k kvs.reverse <;> simp [List.lookup_cons, hb, h]

/-- Claim C7, as stated, fails: the line `null` is not a JSON object, yet
`json.Unmarshal` accepts it and the reader sends an event for it (the nil map);
and a line of `2<<20` bytes stops the scanner, so that the valid line after it is
never delivered. -/
theorem readerPump_null_line_and_long_line :
    readerPump [⟨4, some Json.null⟩] = [[]] ∧
    readerPump [⟨4, some Json.null⟩] ≠ [] ∧
    readerPump [⟨2, some (Json.obj [])⟩] = [[]] ∧
    readerPump [⟨2097152, some (Json.obj [])⟩, ⟨2, some (Json.obj [])⟩] = [] := by
  refine ⟨rfl, ?_, rfl, ?_⟩
  · intro h
    have h1 : readerPump [⟨4, some Json.null⟩] = [[]] := rfl
    rw [h1] at h
    cases h
  · simp [readerPump, maxTokenSize]

/-- Claim C7, amended: the events the reader goroutine puts on the channel are, in the
order of the lines, the decoded lines on which `json.Unmarshal` into the map
succeeds, up to the first line that does not fit the scanner buffer of `2<<20`
bytes, at which the stream is closed; when every line fits, the stream is closed
only after the last line. `json.Unmarshal` succeeds on a JSON object, decoded so
that each key has the value of its last member, and on `null`, which gives a
message without keys; a line that is not JSON or holds another JSON value gives no
event and does not keep a later line from being delivered. -/
theorem readerPump_events (lines : List Line) :
    readerPump lines =
      (lines.takeWhile (fun l => decide (l.size < maxTokenSize))).filterMap
        (fun l => unmarshalEvt l.json) ∧
    ((∀ l ∈ lines, l.size < maxTokenSize) →
      readerPump lines = lines.filterMap (fun l => unmarshalEvt l.json)) ∧
    (∀ t m, unmarshalEvt t = some m ↔
      (t = some Json.null ∧ m = []) ∨
      ∃ kvs : List (String × Json),
        t = some (Json.obj kvs) ∧ m = kvs.foldl (fun m p => assign m p.1 p.2) []) ∧
    (∀ (kvs : List (String × Json)) (k : String),
      index (kvs.foldl (fun m p => assign m p.1 p.2) []) k = List.lookup k kvs.reverse) := by
  have hmain : readerPump lines =
      (lines.takeWhile (fun l => decide (l.size < maxTokenSize))).filterMap
        (fun l => unmarshalEvt l.json) := by
    induction lines with
    | nil => rfl
    | cons l lines ih =>
      by_cases hl : l.size < maxTokenSize
      · cases hu : unmarshalEvt l.json <;>
          simp [readerPump, hl, hu, List.takeWhile, List.filterMap, ih]
      · simp [readerPump, hl, List.takeWhile]
  refine ⟨hmain, ?_, ?_, ?_⟩
  · intro hall
    rw [hmain]
    congr 1
    exact List.takeWhile_eq_self_iff.2 (fun l hl => by simpa using hall l hl)
  · intro t m
    constructor
    · intro h
      unfold unmarshalEvt at h
      split at h
      · rename_i kvs
        right
        exact ⟨kvs, rfl, by simpa using h.symm⟩
      · left
        exact ⟨rfl, by simpa using h.symm⟩
      · cases h
    · rintro (⟨rfl, rfl⟩ | ⟨kvs, rfl, rfl⟩) <;> rfl
  · intro kvs k
    rw [index_foldl_assign kvs k []]
    cases List.lookup k kvs.reverse <;> simp [index]

/-- Concrete instance: a broken line, a number and `null` between two
objects. -/
theorem readerPump_events_witness :
    (∀ l ∈ [(⟨9, some (Json.obj [("id", Json.int 1)])⟩ : Line), ⟨3, none⟩,
        ⟨2, some (Json.int 42)⟩, ⟨4, some Json.null⟩,
        ⟨16, some (Json.obj [("method", Json.str "x")])⟩], l.size < maxTokenSize) ∧
    readerPump [⟨9, some (Json.obj [("id", Json.int 1)])⟩, ⟨3, none⟩,
        ⟨2, some (Json.int 42)⟩, ⟨4, some Json.null⟩,
        ⟨16, some (Json.obj [("method", Json.str "x")])⟩] =
      [[("id", Json.int 1)], [], [("method", Json.str "x")]] :=
  ⟨by decide,
   (readerPump_events [⟨9, some (Json.obj [("id", Json.int 1)])⟩, ⟨3, none⟩,
        ⟨2, some (Json.int 42)⟩, ⟨4, some Json.null⟩,
        ⟨16, some (Json.obj [("method", Json.str "x")])⟩]).2.1 (by decide)⟩

/-! ## Properties of the model selection -/

theorem selectLoop_eq (data : List ModelEntry) : ∀ init : String,
    selectLoop data init =
      match (data.filter (fun m => m.isDefault)).getLast? with
      | some m => m.id
      | none => init := by
  induction data with
  | nil => intro init; rfl
  | cons a data ih =>
    intro init
    rw [selectLoop, ih]
    cases ha : a.isDefault <;>
      cases hl : (data.filter (fun m => m.isDefault)).getLast? <;>
      simp [List.filter, ha, hl, List.getLast?_cons]

/-- Claim C10: the model chosen for the thread is the id of the last entry with
`isDefault = true` when that id is not empty; otherwise (no default entry, or the
last default entry has an empty id) the id of the first entry when the list is
not empty; otherwise the empty string. So the chosen model is `""` or the id of an
entry of the list, and it is `""` only if the list is empty or the first entry,
the one chosen then, has an empty id. -/
theorem selectModel_spec (data : List ModelEntry) :
    selectModel data =
      (match (data.filter (fun m => m.isDefault)).getLast? with
       | some m =>
         if m.id ≠ "" then m.id
         else match data.head? with
           | some f => f.id
           | none => ""
       | none =>
         match data.head? with
         | some f => f.id
         | none => "") ∧
    (selectModel data = "" ∨ ∃ m ∈ data, selectModel data = m.id) ∧
    (selectModel data = "" → data = [] ∨ ∃ m rest, data = m :: rest ∧ m.id = "") := by
  have hloop := selectLoop_eq data ""
  have hmem : ∀ m, (data.filter (fun m => m.isDefault)).getLast? = some m → m ∈ data := by
    intro m hm
    exact (List.mem_filter.1 (List.mem_of_getLast?_eq_some hm)).1
  cases data with
  | nil => simp [selectModel, selectLoop]
  | cons a rest =>
    cases hl : ((a :: rest).filter (fun m => m.isDefault)).getLast? with
    | none =>
      rw [hl] at hloop
      simp only at hloop
      have hsel : selectModel (a :: rest) = a.id := by
        simp [selectModel, hloop]
      refine ⟨by simp [hsel], Or.inr ⟨a, List.mem_cons_self _ _, hsel⟩, ?_⟩
      intro h0
      exact Or.inr ⟨a, rest, rfl, by rw [← hsel]; exact h0⟩
    | some m =>
      rw [hl] at hloop
      simp only at hloop
      by_cases hid : m.id = ""
      · have hsel : selectModel (a :: rest) = a.id := by
          simp [selectModel, hloop, hid]
        refine ⟨by simp [hsel, hid], Or.inr ⟨a, List.mem_cons_self _ _, hsel⟩, ?_⟩
        intro h0
        exact Or.inr ⟨a, rest, rfl, by rw [← hsel]; exact h0⟩
      · have hsel : selectModel (a :: rest) = m.id := by
          simp [selectModel, hloop, hid]
        refine ⟨by simp [hsel, hid], Or.inr ⟨m, hmem m hl, hsel⟩, ?_⟩
        intro h0
        rw [hsel] at h0
        exact absurd h0 hid

/-- Concrete instance: two default entries, the last one is chosen; no
default entry, the first one is chosen. -/
theorem selectModel_spec_witness :
    selectModel [⟨"a", "A", true⟩, ⟨"b", "B", false⟩, ⟨"c", "C", true⟩, ⟨"d", "D", false⟩] = "c" ∧
    selectModel [⟨"a", "A", false⟩, ⟨"b", "B", false⟩] = "a" ∧
    (selectModel [⟨"", "A", false⟩] = "" →
      [(⟨"", "A", false⟩ : ModelEntry)] = [] ∨
      ∃ m rest, [(⟨"", "A", false⟩ : ModelEntry)] = m :: rest ∧ m.id = "") :=
  ⟨rfl, rfl, (selectModel_spec [⟨"", "A", false⟩]).2.2⟩

end CodexAppServer
